import Mathlib

/-
Verification of the `@one-stack/use-cookie` (1hook) cookie-state library
against its documented behaviour.  The repository material consists of the
documentation (`docs/content/.../use-cookie.mdx`) and build configuration;
the implementation `packages/use-cookie/src/index.ts` is referenced from the
docs but is not part of the given sources.  Accordingly, the definitions
below are a shallow embedding modelled from the specification's words:
a definition step (`defineCookies`), a provider hydrating from a server
snapshot, a read/write hook (`useCookie`), and a clear hook
(`useClearCookies`), over a shared browser cookie store and a set of
mounted hook instances spread over browser tabs.
-/

set_option autoImplicit false

namespace UseCookie

/-- Modelled from the spec: the dynamic values a cookie validator produces
and consumes (`unknown` in the TypeScript surface).  `undef` stands for
JavaScript `undefined` (an absent cookie). -/
inductive JsVal where
  | undefined
  | str (s : String)
  | num (n : Int)
  | obj (fields : List (String × JsVal))
deriving Repr

/-- Equality test on `JsVal`, mirroring structural value equality. -/
def JsVal.beq : JsVal → JsVal → Bool
  | .undefined, .undefined => true
  | .str a, .str b => a == b
  | .num a, .num b => a == b
  | .obj a, .obj b => beqFields a b
  | _, _ => false
where
  beqFields : List (String × JsVal) → List (String × JsVal) → Bool
  | [], [] => true
  | (k, v) :: xs, (k2, v2) :: ys => k == k2 && beq v v2 && beqFields xs ys
  | _, _ => false

instance : BEq JsVal := ⟨JsVal.beq⟩

mutual
theorem JsVal.beq_refl : (v : JsVal) → JsVal.beq v v = true
  | .undefined => rfl
  | .str s => by simp [JsVal.beq]
  | .num n => by simp [JsVal.beq]
  | .obj fs => by simp [JsVal.beq, JsVal.beq_refl_fields fs]

theorem JsVal.beq_refl_fields : (fs : List (String × JsVal)) →
    JsVal.beq.beqFields fs fs = true
  | [] => rfl
  | (k, v) :: xs => by
      simp [JsVal.beq.beqFields, JsVal.beq_refl v, JsVal.beq_refl_fields xs]
end

mutual
theorem JsVal.eq_of_beq : {a b : JsVal} → JsVal.beq a b = true → a = b
  | .undefined, .undefined, _ => rfl
  | .str a, .str b, h => by simp [JsVal.beq] at h; simp [h]
  | .num a, .num b, h => by simp [JsVal.beq] at h; simp [h]
  | .obj a, .obj b, h => by
      simp [JsVal.beq] at h
      exact congrArg JsVal.obj (JsVal.eq_of_beq_fields h)
  | .undefined, .str _, h => by simp [JsVal.beq] at h
  | .undefined, .num _, h => by simp [JsVal.beq] at h
  | .undefined, .obj _, h => by simp [JsVal.beq] at h
  | .str _, .undefined, h => by simp [JsVal.beq] at h
  | .str _, .num _, h => by simp [JsVal.beq] at h
  | .str _, .obj _, h => by simp [JsVal.beq] at h
  | .num _, .undefined, h => by simp [JsVal.beq] at h
  | .num _, .str _, h => by simp [JsVal.beq] at h
  | .num _, .obj _, h => by simp [JsVal.beq] at h
  | .obj _, .undefined, h => by simp [JsVal.beq] at h
  | .obj _, .str _, h => by simp [JsVal.beq] at h
  | .obj _, .num _, h => by simp [JsVal.beq] at h

theorem JsVal.eq_of_beq_fields : {xs ys : List (String × JsVal)} →
    JsVal.beq.beqFields xs ys = true → xs = ys
  | [], [], _ => rfl
  | (k, v) :: xs, (k2, v2) :: ys, h => by
      simp [JsVal.beq.beqFields] at h
      obtain ⟨⟨hk, hv⟩, hrest⟩ := h
      rw [hk, JsVal.eq_of_beq hv, JsVal.eq_of_beq_fields hrest]
  | [], (_, _) :: _, h => by simp [JsVal.beq.beqFields] at h
  | (_, _) :: _, [], h => by simp [JsVal.beq.beqFields] at h
end

instance : DecidableEq JsVal := fun a b =>
  if h : JsVal.beq a b = true then
    .isTrue (JsVal.eq_of_beq h)
  else
    .isFalse (fun he => h (he ▸ JsVal.beq_refl a))

/-- JavaScript `String(-)` coercion on the modelled values. -/
def jsCoerceString : JsVal → String
  | .undefined => "undefined"
  | .str s => s
  | .num n => toString n
  | .obj _ => "[object Object]"

/-- JavaScript `a ?? b` (nullish coalescing) on the modelled values. -/
def jsNullish (a b : JsVal) : JsVal :=
  match a with
  | .undefined => b
  | v => v

/-- Hexadecimal digit characters (uppercase, as the platform encoder emits). -/
def hexDigitChar (n : Nat) : Char :=
  (String.toList "0123456789ABCDEF").getD n (Char.ofNat 48)

/-- UTF-8 byte sequence of a code point, computed arithmetically. -/
def utf8Bytes (n : Nat) : List Nat :=
  if n < 0x80 then [n]
  else if n < 0x800 then
    [0xC0 + n / 0x40, 0x80 + n % 0x40]
  else if n < 0x10000 then
    [0xE0 + n / 0x1000, 0x80 + n / 0x40 % 0x40, 0x80 + n % 0x40]
  else
    [0xF0 + n / 0x40000, 0x80 + n / 0x1000 % 0x40, 0x80 + n / 0x40 % 0x40,
      0x80 + n % 0x40]

/-- Characters left intact by `encodeURIComponent`:
`A-Z a-z 0-9 - _ . ! ~ * ' ( )`. -/
def uriUnreserved (c : Char) : Bool :=
  c.isAlphanum ||
    (List.map Char.ofNat [45, 95, 46, 33, 126, 42, 39, 40, 41]).contains c

/-- Percent-encoding of a single byte, `%XX` with uppercase hex. -/
def percentByte (b : Nat) : List Char :=
  [Char.ofNat 37, hexDigitChar (b / 16), hexDigitChar (b % 16)]

/-- Modelled from the spec: the platform `encodeURIComponent`, the default
half of the serialization contract.  Unreserved characters pass through;
every other character is written as the percent-encoding of its UTF-8
bytes. -/
def encodeURIComponent (s : String) : String :=
  String.mk (s.toList.flatMap (fun c =>
    if uriUnreserved c then [c] else (utf8Bytes c.toNat).flatMap percentByte))

/-- Numeric value of a hexadecimal digit character. -/
def hexVal (c : Char) : Option Nat :=
  if c.toNat ≥ 48 && c.toNat ≤ 57 then some (c.toNat - 48)
  else if c.toNat ≥ 65 && c.toNat ≤ 70 then some (c.toNat - 55)
  else if c.toNat ≥ 97 && c.toNat ≤ 102 then some (c.toNat - 87)
  else none

/-- Character-list worker for `decodeURIComponent`: each `%XX` group is
replaced by the character with that byte value (bytewise model, exact for
ASCII data); malformed escapes pass through unchanged. -/
def decodeChars : List Char → List Char
  | [] => []
  | '%' :: h1 :: h2 :: rest =>
      match hexVal h1, hexVal h2 with
      | some a, some b => Char.ofNat (16 * a + b) :: decodeChars rest
      | _, _ => '%' :: decodeChars (h1 :: h2 :: rest)
  | c :: rest => c :: decodeChars rest

/-- Modelled from the spec: the platform `decodeURIComponent`, the default
half of the deserialization contract. -/
def decodeURIComponent (s : String) : String :=
  String.mk (decodeChars s.toList)

/-- Server snapshot / raw cookie map: cookie name to raw string value. -/
abbrev RawCookies := List (String × String)

/-- Modelled from the spec: `config[name].expires` is either a day-count
number (days from now) or an absolute `Date` (modelled as milliseconds
since the epoch). -/
inductive Expires where
  | days (n : Int)
  | date (t : Int)
deriving Repr, DecidableEq

/-- Modelled from the spec: the `sameSite` attribute enumeration. -/
inductive SameSite where
  | lax
  | strict
  | none
deriving Repr, DecidableEq

/-- Modelled from the spec: per-cookie settings accepted by `defineCookies`
(first argument): a validator over the already-deserialized value, the
expiration, and the security attributes.  There is no per-cookie
serialization field in the described API. -/
structure CookieDef where
  validate : JsVal → JsVal
  expires : Option Expires := Option.none
  secure : Bool := false
  domain : Option String := Option.none
  sameSite : Option SameSite := Option.none

/-- Modelled from the spec: the optional second argument of `defineCookies`:
global (de)serialization overrides and the switch disabling the default
URL-component encoding. -/
structure CookieOptions where
  disableEncoding : Bool := false
  serialize : Option (JsVal → String) := Option.none
  deserialize : Option (String → JsVal) := Option.none

/-- Default serialization: JavaScript string coercion followed by
URL-component encoding (skipped when `disableEncoding` is set). -/
def defaultSerialize (disableEncoding : Bool) (v : JsVal) : String :=
  if disableEncoding then jsCoerceString v
  else encodeURIComponent (jsCoerceString v)

/-- Default deserialization: URL-component decoding (skipped when
`disableEncoding` is set), producing a string value. -/
def defaultDeserialize (disableEncoding : Bool) (s : String) : JsVal :=
  .str (if disableEncoding then s else decodeURIComponent s)

/-- The serializer actually used: the global override when present,
otherwise the default.  It is resolved from the global options alone. -/
def resolvedSerialize (opts : CookieOptions) : JsVal → String :=
  match opts.serialize with
  | some f => f
  | Option.none => defaultSerialize opts.disableEncoding

/-- The deserializer actually used: the global override when present,
otherwise the default.  It is resolved from the global options alone. -/
def resolvedDeserialize (opts : CookieOptions) : String → JsVal :=
  match opts.deserialize with
  | some f => f
  | Option.none => defaultDeserialize opts.disableEncoding

/-- The first argument of `defineCookies`: a mapping from cookie name to
its settings (an association list standing for the object literal). -/
abbrev CookieConfig := List (String × CookieDef)

/-- First-match association-list lookup. -/
def lookupKey {α : Type} : List (String × α) → String → Option α
  | [], _ => Option.none
  | (k2, v) :: rest, k => if k2 = k then some v else lookupKey rest k

/-- Remove every binding of a key. -/
def eraseKey {α : Type} (xs : List (String × α)) (k : String) :
    List (String × α) :=
  xs.filter (fun p => !(p.1 == k))

/-- Overwrite the binding of a key. -/
def insertKey {α : Type} (xs : List (String × α)) (k : String) (v : α) :
    List (String × α) :=
  (k, v) :: eraseKey xs k

/-- Remove every binding whose key belongs to `ks`. -/
def removeKeys {α : Type} (xs : List (String × α)) (ks : List String) :
    List (String × α) :=
  xs.filter (fun p => !(ks.contains p.1))

/-- The set of cookie names known to a definition call, each name once. -/
def definedNames (cfg : CookieConfig) : List String :=
  (cfg.map Prod.fst).dedup

/-- A cookie as held by the browser store: raw string value plus the
attributes it was written with. -/
structure StoredCookie where
  value : String
  expiresAt : Option Int := Option.none
  secure : Bool := false
  domain : Option String := Option.none
  sameSite : Option SameSite := Option.none
deriving Repr, DecidableEq

/-- A mounted `useCookie` consumer: which browser tab it lives in, which
cookie it subscribes to, and its current validated value. -/
structure HookInstance where
  tab : Nat
  name : String
  value : JsVal
deriving Repr, DecidableEq

/-- The world the hooks act on: the browser cookie store (shared by all
tabs of the origin) and the mounted hook instances across tabs. -/
structure SystemState where
  store : List (String × StoredCookie)
  instances : List HookInstance
deriving Repr

/-- Apply the configured validator of `name`; reading an undefined cookie
name is not reachable through the typed API, so it validates as identity. -/
def validateFor (cfg : CookieConfig) (name : String) (v : JsVal) : JsVal :=
  match lookupKey cfg name with
  | some d => d.validate v
  | Option.none => v

/-- The raw string currently stored under `name`, if any. -/
def readRaw (store : List (String × StoredCookie)) (name : String) :
    Option String :=
  (lookupKey store name).map StoredCookie.value

/-- Modelled from the spec: reading a cookie: take the raw stored string
(or absence), deserialize it (an absent cookie deserializes to
`undefined`), and validate the result. -/
def readCookie (cfg : CookieConfig) (opts : CookieOptions)
    (st : SystemState) (name : String) : JsVal :=
  validateFor cfg name
    (match readRaw st.store name with
     | some raw => resolvedDeserialize opts raw
     | Option.none => .undefined)

/-- Modelled from the spec: `CookieProvider` receives the server-observed
cookies as a name-to-raw-string record and establishes the initial world:
the browser store mirrors the snapshot and nothing is mounted yet. -/
def CookieProvider (serverCookies : RawCookies) : SystemState :=
  { store := serverCookies.map (fun p => (p.1, { value := p.2 })),
    instances := [] }

/-- Mount a new `useCookie` consumer in a tab: it hydrates by reading and
validating the current store contents. -/
def mountInstance (cfg : CookieConfig) (opts : CookieOptions)
    (st : SystemState) (tab : Nat) (name : String) : SystemState :=
  { st with
    instances :=
      st.instances ++ [{ tab := tab, name := name,
                         value := readCookie cfg opts st name }] }

/-- A `SetStateAction<T>`: either a plain value or an updater applied to
the current state. -/
inductive SetStateAction where
  | value (v : JsVal)
  | updater (f : JsVal → JsVal)

/-- Resolve a `SetStateAction` against the current value. -/
def applySetStateAction (a : SetStateAction) (current : JsVal) : JsVal :=
  match a with
  | .value v => v
  | .updater f => f current

/-- Milliseconds in a day, for day-count expirations. -/
def msPerDay : Int := 86400000

/-- Modelled from the spec: the absolute expiration instant written with a
cookie: a day-count counts days from `now`, a `Date` is used as is. -/
def expiresAtAbs (now : Int) : Option Expires → Option Int
  | Option.none => Option.none
  | some (.days n) => some (now + n * msPerDay)
  | some (.date t) => some t

/-- The store entry a write produces: the serialized raw string together
with the configured expiration and security attributes. -/
def storedFor (d : CookieDef) (now : Int) (raw : String) : StoredCookie :=
  { value := raw, expiresAt := expiresAtAbs now d.expires,
    secure := d.secure, domain := d.domain, sameSite := d.sameSite }

/-- Modelled from the spec: the change notification: every mounted
instance of `name` — in the writing tab and in every other tab — re-reads
the store and re-validates. -/
def notifySubscribers (cfg : CookieConfig) (opts : CookieOptions)
    (st : SystemState) (name : String) : SystemState :=
  { st with
    instances := st.instances.map (fun i =>
      if i.name = name then
        { i with value := readCookie cfg opts st i.name }
      else i) }

/-- Modelled from the spec: the setter of `useCookie`: resolve the action
against the current validated value, serialize with the configured
serializer, write the store entry with the configured attributes, and
notify all subscribers of that cookie. -/
def setCookie (cfg : CookieConfig) (opts : CookieOptions) (now : Int)
    (st : SystemState) (name : String) (action : SetStateAction) :
    SystemState :=
  match lookupKey cfg name with
  | Option.none => st
  | some d =>
      let v := applySetStateAction action (readCookie cfg opts st name)
      let raw := resolvedSerialize opts v
      let st2 : SystemState :=
        { st with store := insertKey st.store name (storedFor d now raw) }
      notifySubscribers cfg opts st2 name

/-- Modelled from the spec: the clear function of `useClearCookies`: with
`keys` it removes those of the given names known to the definition step,
without arguments it removes every defined name; removal expires the store
entry immediately (it disappears from the store) and notifies the
subscribers of each removed cookie, which re-read and re-validate. -/
def clearCookies (cfg : CookieConfig) (opts : CookieOptions)
    (st : SystemState) (keys : Option (List String)) : SystemState :=
  let ks := (keys.getD (definedNames cfg)).filter
    (fun k => (lookupKey cfg k).isSome)
  let st2 : SystemState := { st with store := removeKeys st.store ks }
  { st2 with
    instances := st2.instances.map (fun i =>
      if ks.contains i.name then
        { i with value := readCookie cfg opts st2 i.name }
      else i) }

/-- Modelled from the spec: the read/write hook: given a defined cookie
name it returns the `[state, setState]` pair: the current validated value
and a setter accepting a value or an updater. -/
def useCookie (cfg : CookieConfig) (opts : CookieOptions)
    (st : SystemState) (name : String) :
    JsVal × (Int → SetStateAction → SystemState) :=
  (readCookie cfg opts st name, fun now a => setCookie cfg opts now st name a)

/-- Modelled from the spec: the clear hook returns the clear function. -/
def useClearCookies (cfg : CookieConfig) (opts : CookieOptions)
    (st : SystemState) (keys : Option (List String)) : SystemState :=
  clearCookies cfg opts st keys

/-- The three artifacts returned by the definition step. -/
structure CookieArtifacts where
  CookieProvider : RawCookies → SystemState
  useCookie : SystemState → String →
    JsVal × (Int → SetStateAction → SystemState)
  useClearCookies : SystemState → Option (List String) → SystemState

/-- Modelled from the spec: `defineCookies` accepts the name-to-settings
mapping and the optional global serialization options, and returns the
provider and the two hooks, closed over this configuration. -/
def defineCookies (cfg : CookieConfig) (opts : CookieOptions) :
    CookieArtifacts :=
  { CookieProvider := CookieProvider,
    useCookie := useCookie cfg opts,
    useClearCookies := useClearCookies cfg opts }

/-- `defineCookies` threaded through the world state, to express that the
definition step is observationally pure: it is the identity on the world. -/
def defineCookiesW (cfg : CookieConfig) (opts : CookieOptions)
    (w : SystemState) : SystemState × CookieArtifacts :=
  (w, defineCookies cfg opts)

/-- The system invariant: every mounted instance caches exactly the
validated read of the current store for its cookie — no externally
observable intermediate states. -/
def Inv (cfg : CookieConfig) (opts : CookieOptions) (st : SystemState) :
    Prop :=
  ∀ i ∈ st.instances, i.value = readCookie cfg opts st i.name

instance (cfg : CookieConfig) (opts : CookieOptions) (st : SystemState) :
    Decidable (Inv cfg opts st) :=
  List.decidableBAll _ st.instances

/-! ### Association-list lemmas -/

theorem lookupKey_insertKey_self {α : Type} (xs : List (String × α))
    (k : String) (v : α) : lookupKey (insertKey xs k v) k = some v := by
  simp [insertKey, lookupKey]

theorem lookupKey_eraseKey_ne {α : Type} (xs : List (String × α))
    {k k' : String} (h : k' ≠ k) :
    lookupKey (eraseKey xs k) k' = lookupKey xs k' := by
  induction xs with
  | nil => rfl
  | cons p rest ih =>
      obtain ⟨a, b⟩ := p
      by_cases hak : a = k
      · subst hak
        have hne : ¬ a = k' := fun he => h he.symm
        simp [eraseKey, lookupKey, hne] at *
        exact ih
      · simp [eraseKey, lookupKey, hak] at *
        by_cases hk' : a = k'
        · simp [hk']
        · simp [hk', ih]

theorem lookupKey_insertKey_ne {α : Type} (xs : List (String × α))
    {k k' : String} (v : α) (h : k' ≠ k) :
    lookupKey (insertKey xs k v) k' = lookupKey xs k' := by
  have hne : ¬ k = k' := fun he => h he.symm
  simp [insertKey, lookupKey, hne]
  exact lookupKey_eraseKey_ne xs h

theorem lookupKey_removeKeys_of_mem {α : Type} (xs : List (String × α))
    {ks : List String} {k : String} (h : k ∈ ks) :
    lookupKey (removeKeys xs ks) k = Option.none := by
  induction xs with
  | nil => rfl
  | cons p rest ih =>
      obtain ⟨a, b⟩ := p
      by_cases hak : a = k
      · subst hak
        simp [removeKeys, List.filter, lookupKey, h] at *
        exact ih
      · by_cases hm : a ∈ ks
        · simp [removeKeys, List.filter, hm] at *
          exact ih
        · simp [removeKeys, List.filter, hm, lookupKey, hak] at *
          exact ih

theorem lookupKey_removeKeys_of_not_mem {α : Type} (xs : List (String × α))
    {ks : List String} {k : String} (h : k ∉ ks) :
    lookupKey (removeKeys xs ks) k = lookupKey xs k := by
  induction xs with
  | nil => rfl
  | cons p rest ih =>
      obtain ⟨a, b⟩ := p
      by_cases hak : a = k
      · subst hak
        simp [removeKeys, List.filter, lookupKey, h] at *
      · by_cases hm : a ∈ ks
        · simp [removeKeys, List.filter, hm, lookupKey, hak] at *
          exact ih
        · simp [removeKeys, List.filter, hm, lookupKey, hak] at *
          exact ih

theorem lookupKey_map_value {α β : Type} (xs : List (String × α))
    (f : α → β) (k : String) :
    lookupKey (xs.map (fun p => (p.1, f p.2))) k =
      (lookupKey xs k).map f := by
  induction xs with
  | nil => rfl
  | cons p rest ih =>
      by_cases hk : p.1 = k
      · simp [lookupKey, hk]
      · simp [lookupKey, hk, ih]

theorem mem_of_lookupKey_some {α : Type} {xs : List (String × α)}
    {k : String} {v : α} (h : lookupKey xs k = some v) :
    k ∈ xs.map Prod.fst := by
  induction xs with
  | nil => simp [lookupKey] at h
  | cons p rest ih =>
      by_cases hk : p.1 = k
      · simp [hk]
      · simp [lookupKey, hk] at h
        simp [ih h]

theorem mem_definedNames {cfg : CookieConfig} {k : String} {d : CookieDef}
    (h : lookupKey cfg k = some d) : k ∈ definedNames cfg := by
  simpa [definedNames, List.mem_dedup] using mem_of_lookupKey_some h

theorem readCookie_congr_store (cfg : CookieConfig) (opts : CookieOptions)
    {st st' : SystemState} (h : st.store = st'.store) (n : String) :
    readCookie cfg opts st n = readCookie cfg opts st' n := by
  unfold readCookie
  rw [h]

/-! ### Concrete fixtures from the documentation examples -/

/-- The functional validator of the docs: `(value) => String(value ?? '')`. -/
def searchValidate (v : JsVal) : JsVal :=
  .str (jsCoerceString (jsNullish v (.str "")))

/-- The `search` cookie of the quick-start: string value, expires in 365
days. -/
def searchDef : CookieDef :=
  { validate := searchValidate, expires := some (.days 365) }

/-- Validator behaviour of `z.object({id: z.number(), name: z.string()})
.optional()`: a well-formed object passes through, an absent value stays
`undefined`. -/
def selectedValidate (v : JsVal) : JsVal :=
  match v with
  | .obj fs => .obj fs
  | _ => .undefined

/-- The `selected` cookie of the quick-start: optional object value with
an absolute expiration and security attributes. -/
def selectedDef : CookieDef :=
  { validate := selectedValidate, expires := some (.date 1797033600000),
    secure := true, domain := some "example.com", sameSite := some .lax }

/-- The quick-start configuration: the `search` and `selected` cookies. -/
def demoCfg : CookieConfig := [("search", searchDef), ("selected", selectedDef)]

/-- Decimal digit rendering of a natural number (fuel-based worker). -/
def natToStringAux : Nat → Nat → List Char → List Char
  | 0, _, acc => acc
  | fuel + 1, n, acc =>
      let d := Char.ofNat (48 + n % 10)
      if n < 10 then d :: acc else natToStringAux fuel (n / 10) (d :: acc)

/-- Decimal rendering of a natural number. -/
def natToString (n : Nat) : String :=
  String.mk (natToStringAux (n + 1) n [])

/-- Split a character list at the bar character, accumulator-based. -/
def splitBarChars : List Char → List Char → List String
  | [], acc => [String.mk acc.reverse]
  | c :: rest, acc =>
      if c = Char.ofNat 124 then
        String.mk acc.reverse :: splitBarChars rest []
      else splitBarChars rest (c :: acc)

/-- Parse a non-empty all-digit character list as a natural number. -/
def natFromDigits (cs : List Char) : Option Nat :=
  if cs.isEmpty || !(cs.all Char.isDigit) then Option.none
  else some (cs.foldl (fun n c => n * 10 + (c.toNat - 48)) 0)

/-- A user-provided custom serializer (global `options.serialize`) for the
`{id, name}` object shape: `id|name`. -/
def idNameSerialize : JsVal → String
  | .obj [(_, .num (Int.ofNat i)), (_, .str s)] =>
      natToString i ++ String.mk [Char.ofNat 124] ++ s
  | _ => ""

/-- The matching custom deserializer (global `options.deserialize`). -/
def idNameDeserialize (s : String) : JsVal :=
  match splitBarChars s.toList [] with
  | [a, b] =>
      match natFromDigits a.toList with
      | some n => .obj [("id", .num (Int.ofNat n)), ("name", .str b)]
      | Option.none => .undefined
  | _ => .undefined

/-- Global options installing the custom `{id, name}` codec. -/
def idNameOpts : CookieOptions :=
  { serialize := some idNameSerialize, deserialize := some idNameDeserialize }

/-- The object value written in the docs example. -/
def demoObjVal : JsVal := .obj [("id", .num 1), ("name", .str "a")]

/-- A world with three mounted consumers of `selected`: two in tab 0 (the
writer and a second consumer) and one in tab 1. -/
def demoStThree : SystemState :=
  { store := [],
    instances := [⟨0, "selected", .undefined⟩, ⟨0, "selected", .undefined⟩,
                  ⟨1, "selected", .undefined⟩] }

/-- A world holding both docs cookies plus a foreign cookie, with a
consumer of each docs cookie mounted in separate tabs. -/
def demoStFull : SystemState :=
  { store := [("search", { value := "abc" }),
              ("selected", { value := "1|a" }),
              ("other", { value := "zzz" })],
    instances := [⟨0, "search", .str "abc"⟩, ⟨1, "selected", .undefined⟩] }

/-- Reads agree between two states whose stores agree at the read name. -/
theorem readCookie_lookup_congr (cfg : CookieConfig) (opts : CookieOptions)
    {s1 s2 : SystemState} (n : String)
    (h : lookupKey s1.store n = lookupKey s2.store n) :
    readCookie cfg opts s1 n = readCookie cfg opts s2 n := by
  unfold readCookie readRaw
  rw [h]

/-- The freshly hydrated world satisfies the invariant: nothing mounted. -/
theorem Inv_CookieProvider (cfg : CookieConfig) (opts : CookieOptions)
    (server : RawCookies) : Inv cfg opts (CookieProvider server) := by
  intro i hi
  simp [CookieProvider] at hi

/-- Mounting a consumer preserves the invariant. -/
theorem Inv_mountInstance (cfg : CookieConfig) (opts : CookieOptions)
    (st : SystemState) (tab : Nat) (name : String) (h : Inv cfg opts st) :
    Inv cfg opts (mountInstance cfg opts st tab name) := by
  intro i hi
  simp only [mountInstance, List.mem_append, List.mem_singleton] at hi
  rcases hi with hi | hi
  · rw [h i hi]
    exact readCookie_congr_store cfg opts rfl i.name
  · subst hi
    exact readCookie_congr_store cfg opts rfl name

/-- Writing a cookie preserves the invariant. -/
theorem Inv_setCookie (cfg : CookieConfig) (opts : CookieOptions)
    (now : Int) (st : SystemState) (name : String) (action : SetStateAction)
    (h : Inv cfg opts st) :
    Inv cfg opts (setCookie cfg opts now st name action) := by
  cases hlk : lookupKey cfg name with
  | none =>
      have hid : setCookie cfg opts now st name action = st := by
        simp [setCookie, hlk]
      rw [hid]
      exact h
  | some d =>
      have hset : setCookie cfg opts now st name action
          = notifySubscribers cfg opts
              (SystemState.mk
                (insertKey st.store name
                  (storedFor d now (resolvedSerialize opts
                    (applySetStateAction action
                      (readCookie cfg opts st name)))))
                st.instances) name := by
        simp [setCookie, hlk]
      rw [hset]
      intro i hi
      simp only [notifySubscribers, List.mem_map] at hi
      obtain ⟨j, hj, hfj⟩ := hi
      by_cases hjn : j.name = name
      · rw [if_pos hjn] at hfj
        rw [← hfj]
        exact readCookie_congr_store cfg opts rfl j.name
      · rw [if_neg hjn] at hfj
        rw [← hfj]
        rw [h j hj]
        apply readCookie_lookup_congr
        exact (lookupKey_insertKey_ne st.store _ hjn).symm

/-- Clearing cookies preserves the invariant. -/
theorem Inv_clearCookies (cfg : CookieConfig) (opts : CookieOptions)
    (st : SystemState) (keys : Option (List String)) (h : Inv cfg opts st) :
    Inv cfg opts (clearCookies cfg opts st keys) := by
  intro i hi
  simp only [clearCookies, List.mem_map] at hi
  obtain ⟨j, hj, hfj⟩ := hi
  by_cases hc : ((keys.getD (definedNames cfg)).filter
      (fun k => (lookupKey cfg k).isSome)).contains j.name = true
  · rw [if_pos hc] at hfj
    rw [← hfj]
    exact readCookie_congr_store cfg opts rfl j.name
  · rw [if_neg hc] at hfj
    rw [← hfj]
    rw [h j hj]
    apply readCookie_lookup_congr
    have hnm : j.name ∉ (keys.getD (definedNames cfg)).filter
        (fun k => (lookupKey cfg k).isSome) :=
      fun hmem => hc (List.elem_eq_true_of_mem hmem)
    exact (lookupKey_removeKeys_of_not_mem st.store hnm).symm

/-! ### Claim theorems -/

/-- C1: for every cookie name defined in the definition step, writing any
value via the setter of the read/write hook and then immediately reading
via the same hook returns the validated value obtained by round-tripping
the written input through the configured serialize and deserialize
functions. -/
theorem useCookie_set_then_read (cfg : CookieConfig) (opts : CookieOptions)
    (now : Int) (st : SystemState) (name : String) (d : CookieDef)
    (v : JsVal) (hd : lookupKey cfg name = some d) :
    (useCookie cfg opts
        ((useCookie cfg opts st name).2 now (.value v)) name).1
      = d.validate (resolvedDeserialize opts (resolvedSerialize opts v)) := by
  show readCookie cfg opts (setCookie cfg opts now st name (.value v)) name = _
  simp [setCookie, hd, readCookie, notifySubscribers, readRaw,
    applySetStateAction, validateFor, lookupKey_insertKey_self, storedFor]

/-- C1 witness: the quick-start `search` cookie, default options, writing
a string containing a space. -/
theorem useCookie_set_then_read_witness :
    (useCookie demoCfg {}
        ((useCookie demoCfg {} (CookieProvider []) "search").2 0
          (.value (.str "hello world"))) "search").1
      = searchDef.validate
          (resolvedDeserialize {} (resolvedSerialize {} (.str "hello world"))) :=
  useCookie_set_then_read demoCfg {} 0 (CookieProvider []) "search"
    searchDef (.str "hello world") rfl

/-- C3: for every defined cookie name absent from the server snapshot, the
hook's initial read is the validator applied to the absent (`undefined`)
raw value — the validator's declared default. -/
theorem initial_read_absent_default (cfg : CookieConfig)
    (opts : CookieOptions) (server : RawCookies) (name : String)
    (d : CookieDef) (hd : lookupKey cfg name = some d)
    (hs : lookupKey server name = Option.none) :
    (useCookie cfg opts (CookieProvider server) name).1
      = d.validate .undefined := by
  show readCookie cfg opts (CookieProvider server) name = _
  simp only [readCookie, CookieProvider, readRaw]
  rw [lookupKey_map_value server
    (fun s => ({ value := s } : StoredCookie)) name, hs]
  simp [validateFor, hd]

/-- C3 witness: the docs example: definition
`{search: {validate: v => String(v ?? '')}}`, empty server snapshot, and
the initial read of `search` is `''`. -/
theorem initial_read_absent_default_witness :
    (useCookie demoCfg {} (CookieProvider []) "search").1 = .str "" :=
  (initial_read_absent_default demoCfg {} [] "search" searchDef rfl
    rfl).trans rfl

/-- C2: the setter serializes the value with the configured serializer and
writes it to the cookie store together with the configured expiration and
security attributes, and after the change notification every mounted
instance of that cookie — in the writing tab as well as in any other tab —
holds a value equal to the one written (given that the value survives the
configured round trip, as in the docs example). -/
theorem setCookie_writes_and_notifies (cfg : CookieConfig)
    (opts : CookieOptions) (now : Int) (st : SystemState) (name : String)
    (d : CookieDef) (v : JsVal) (i : HookInstance)
    (hd : lookupKey cfg name = some d)
    (hrt : d.validate (resolvedDeserialize opts (resolvedSerialize opts v))
      = v)
    (hi : i ∈ ((useCookie cfg opts st name).2 now (.value v)).instances)
    (hiname : i.name = name) :
    lookupKey ((useCookie cfg opts st name).2 now (.value v)).store name
      = some { value := resolvedSerialize opts v,
               expiresAt := expiresAtAbs now d.expires,
               secure := d.secure, domain := d.domain,
               sameSite := d.sameSite }
    ∧ i.value = v := by
  have hset : (useCookie cfg opts st name).2 now (.value v)
      = notifySubscribers cfg opts
          (SystemState.mk
            (insertKey st.store name
              (storedFor d now (resolvedSerialize opts v)))
            st.instances) name := by
    show setCookie cfg opts now st name (.value v) = _
    simp [setCookie, hd, applySetStateAction]
  constructor
  · rw [hset]
    show lookupKey (insertKey st.store name _) name = _
    rw [lookupKey_insertKey_self]
    rfl
  · rw [hset] at hi
    simp only [notifySubscribers, List.mem_map] at hi
    obtain ⟨j, hj, hfj⟩ := hi
    by_cases hjn : j.name = name
    · rw [if_pos hjn] at hfj
      rw [← hfj]
      show readCookie cfg opts _ j.name = v
      rw [hjn]
      simp [readCookie, readRaw, lookupKey_insertKey_self, validateFor,
        hd, storedFor]
      exact hrt
    · rw [if_neg hjn] at hfj
      rw [← hfj] at hiname
      exact absurd hiname hjn

/-- C2 witness: the docs example: writing `{id: 1, name: 'a'}` to the
`selected` cookie with the custom codec, and the consumer in the other
tab ends up holding that object. -/
theorem setCookie_writes_and_notifies_witness :
    (⟨1, "selected", demoObjVal⟩ : HookInstance) ∈
      ((useCookie demoCfg idNameOpts demoStThree "selected").2 5
        (.value demoObjVal)).instances
    ∧ (lookupKey ((useCookie demoCfg idNameOpts demoStThree "selected").2 5
          (.value demoObjVal)).store "selected"
        = some { value := resolvedSerialize idNameOpts demoObjVal,
                 expiresAt := expiresAtAbs 5 selectedDef.expires,
                 secure := selectedDef.secure, domain := selectedDef.domain,
                 sameSite := selectedDef.sameSite }
      ∧ (⟨1, "selected", demoObjVal⟩ : HookInstance).value = demoObjVal) :=
  ⟨by decide,
    setCookie_writes_and_notifies demoCfg idNameOpts 5 demoStThree
      "selected" selectedDef demoObjVal ⟨1, "selected", demoObjVal⟩ rfl rfl
      (by decide) rfl⟩

/-- C4: calling the clear function with no arguments removes every cookie
name defined in the definition step from the store, and notifies the
subscribers as a write does: every mounted instance of a defined cookie
ends up re-reading and re-validating the now-absent value. -/
theorem clearCookies_all (cfg : CookieConfig) (opts : CookieOptions)
    (st : SystemState) (name : String) (d : CookieDef) (i : HookInstance)
    (hd : lookupKey cfg name = some d)
    (hi : i ∈ (useClearCookies cfg opts st Option.none).instances)
    (hiname : i.name = name) :
    lookupKey (useClearCookies cfg opts st Option.none).store name
      = Option.none
    ∧ i.value = d.validate .undefined := by
  have hmem : name ∈ (definedNames cfg).filter
      (fun k => (lookupKey cfg k).isSome) :=
    List.mem_filter.mpr ⟨mem_definedNames hd, by simp [hd]⟩
  constructor
  · show lookupKey (removeKeys st.store _) name = Option.none
    exact lookupKey_removeKeys_of_mem st.store hmem
  · simp only [useClearCookies, clearCookies, Option.getD,
      List.mem_map] at hi
    obtain ⟨j, hj, hfj⟩ := hi
    have hjn : j.name = name := by
      by_cases hc : (((definedNames cfg).filter
          (fun k => (lookupKey cfg k).isSome)).contains j.name) = true
      · rw [if_pos hc] at hfj
        rw [← hfj] at hiname
        exact hiname
      · rw [if_neg (by simpa using hc)] at hfj
        rw [← hfj] at hiname
        exact hiname
    have hc : (((definedNames cfg).filter
        (fun k => (lookupKey cfg k).isSome)).contains j.name) = true := by
      rw [hjn]
      exact List.elem_eq_true_of_mem hmem
    rw [if_pos hc] at hfj
    rw [← hfj]
    show readCookie cfg opts _ j.name = _
    rw [hjn]
    simp [readCookie, readRaw, validateFor, hd,
      lookupKey_removeKeys_of_mem st.store hmem]

/-- C5: clearing with an explicit list of names removes exactly those
defined names from the store and from subsequent reads, leaves every name
outside the list (and every name not known to the definition step)
untouched, and leaves the instances of unlisted cookies unchanged. -/
theorem clearCookies_keys_exact (cfg : CookieConfig) (opts : CookieOptions)
    (st : SystemState) (keys : List String) (kIn nOther nUndef : String)
    (i : HookInstance)
    (hkIn : kIn ∈ keys) (hkDef : (lookupKey cfg kIn).isSome = true)
    (hnOther : nOther ∉ keys)
    (hnUndef : (lookupKey cfg nUndef).isSome = false)
    (hi : i ∈ st.instances) (hiname : i.name ∉ keys) :
    lookupKey (useClearCookies cfg opts st (some keys)).store kIn
      = Option.none
    ∧ lookupKey (useClearCookies cfg opts st (some keys)).store nOther
      = lookupKey st.store nOther
    ∧ readCookie cfg opts (useClearCookies cfg opts st (some keys)) nOther
      = readCookie cfg opts st nOther
    ∧ lookupKey (useClearCookies cfg opts st (some keys)).store nUndef
      = lookupKey st.store nUndef
    ∧ i ∈ (useClearCookies cfg opts st (some keys)).instances := by
  have hksIn : kIn ∈ keys.filter (fun k => (lookupKey cfg k).isSome) :=
    List.mem_filter.mpr ⟨hkIn, hkDef⟩
  have hksOther : nOther ∉ keys.filter (fun k => (lookupKey cfg k).isSome) :=
    fun hmem => hnOther (List.mem_of_mem_filter hmem)
  have hksUndef : nUndef ∉ keys.filter (fun k => (lookupKey cfg k).isSome) :=
    fun hmem => by
      have := (List.mem_filter.mp hmem).2
      rw [hnUndef] at this
      exact Bool.false_ne_true this
  have hstore : (useClearCookies cfg opts st (some keys)).store
      = removeKeys st.store (keys.filter (fun k => (lookupKey cfg k).isSome)) :=
    rfl
  refine ⟨?_, ?_, ?_, ?_, ?_⟩
  · rw [hstore]
    exact lookupKey_removeKeys_of_mem st.store hksIn
  · rw [hstore]
    exact lookupKey_removeKeys_of_not_mem st.store hksOther
  · unfold readCookie readRaw
    rw [hstore, lookupKey_removeKeys_of_not_mem st.store hksOther]
  · rw [hstore]
    exact lookupKey_removeKeys_of_not_mem st.store hksUndef
  · have hksName : i.name ∉ keys.filter (fun k => (lookupKey cfg k).isSome) :=
      fun hmem => hiname (List.mem_of_mem_filter hmem)
    have hc : ((keys.filter
        (fun k => (lookupKey cfg k).isSome)).contains i.name) = false := by
      simpa using hksName
    show i ∈ st.instances.map _
    refine List.mem_map.mpr ⟨i, hi, ?_⟩
    have hcond : ¬(List.filter (fun k => (lookupKey cfg k).isSome)
        ((some keys).getD (definedNames cfg))).contains i.name = true := by
      simp only [Option.getD_some]
      rw [hc]
      exact Bool.false_ne_true
    rw [if_neg hcond]

/-- C10: the read/write hook returns a `[state, setState]` pair whose
setter accepts a `SetStateAction`: passing an updater function writes the
same state as passing the value obtained by applying the updater to the
current validated value. -/
theorem useCookie_setter_updater (cfg : CookieConfig)
    (opts : CookieOptions) (now : Int) (st : SystemState) (name : String)
    (f : JsVal → JsVal) :
    (useCookie cfg opts st name).1 = readCookie cfg opts st name
    ∧ (useCookie cfg opts st name).2 now (.updater f)
        = (useCookie cfg opts st name).2 now
            (.value (f (useCookie cfg opts st name).1)) := by
  constructor
  · rfl
  · show setCookie cfg opts now st name (.updater f)
      = setCookie cfg opts now st name
          (.value (f (readCookie cfg opts st name)))
    unfold setCookie
    cases lookupKey cfg name with
    | none => rfl
    | some d => simp [applySetStateAction]

/-- C4 witness: clearing everything in the demo world: the `search` entry
is gone and its mounted consumer re-validated to the default `''`. -/
theorem clearCookies_all_witness :
    (⟨0, "search", .str ""⟩ : HookInstance) ∈
      (useClearCookies demoCfg {} demoStFull Option.none).instances
    ∧ (lookupKey (useClearCookies demoCfg {} demoStFull Option.none).store
          "search" = Option.none
      ∧ (⟨0, "search", .str ""⟩ : HookInstance).value
          = searchDef.validate .undefined) :=
  ⟨by decide,
    clearCookies_all demoCfg {} demoStFull "search" searchDef
      ⟨0, "search", .str ""⟩ rfl (by decide) rfl⟩

/-- C5 witness: clearing only `search` in the demo world: `search` is
removed, `selected` and the foreign `other` cookie keep their stored
values, and the `selected` consumer is untouched. -/
theorem clearCookies_keys_exact_witness :
    lookupKey (useClearCookies demoCfg {} demoStFull
        (some ["search"])).store "search" = Option.none
    ∧ lookupKey (useClearCookies demoCfg {} demoStFull
        (some ["search"])).store "selected"
      = lookupKey demoStFull.store "selected"
    ∧ readCookie demoCfg {} (useClearCookies demoCfg {} demoStFull
        (some ["search"])) "selected"
      = readCookie demoCfg {} demoStFull "selected"
    ∧ lookupKey (useClearCookies demoCfg {} demoStFull
        (some ["search"])).store "other"
      = lookupKey demoStFull.store "other"
    ∧ (⟨1, "selected", .undefined⟩ : HookInstance) ∈
        (useClearCookies demoCfg {} demoStFull
          (some ["search"])).instances :=
  clearCookies_keys_exact demoCfg {} demoStFull ["search"] "search"
    "selected" "other" ⟨1, "selected", .undefined⟩ (by decide) rfl (by decide)
    rfl (by decide) (by decide)

/-- C6: every write stamps the store entry with the absolute expiration
derived from the cookie's `expires` setting, and that derivation reads a
numerical setting as that many days from the current time and a `Date`
setting as that absolute instant. -/
theorem setCookie_expires_interpretation (cfg : CookieConfig)
    (opts : CookieOptions) (now : Int) (st : SystemState) (name : String)
    (d : CookieDef) (action : SetStateAction) (nDays t : Int)
    (hd : lookupKey cfg name = some d) :
    (lookupKey (setCookie cfg opts now st name action).store name).map
        StoredCookie.expiresAt = some (expiresAtAbs now d.expires)
    ∧ expiresAtAbs now (some (.days nDays)) = some (now + nDays * msPerDay)
    ∧ expiresAtAbs now (some (.date t)) = some t := by
  refine ⟨?_, rfl, rfl⟩
  simp [setCookie, hd, notifySubscribers, lookupKey_insertKey_self,
    storedFor]

/-- C6 witness: the quick-start cookies: `search` expires 365 days from
`now = 0`, `selected` at the absolute date of the example. -/
theorem setCookie_expires_interpretation_witness :
    ((lookupKey (setCookie demoCfg {} 0 demoStFull "search"
          (.value (.str "x"))).store "search").map StoredCookie.expiresAt
        = some (expiresAtAbs 0 searchDef.expires)
      ∧ expiresAtAbs 0 (some (.days 365)) = some (0 + 365 * msPerDay)
      ∧ expiresAtAbs 0 (some (.date 1797033600000))
        = some 1797033600000)
    ∧ ((lookupKey (setCookie demoCfg {} 0 demoStFull "selected"
          (.value (.str "y"))).store "selected").map StoredCookie.expiresAt
        = some (expiresAtAbs 0 selectedDef.expires)
      ∧ expiresAtAbs 0 (some (.days 7)) = some (0 + 7 * msPerDay)
      ∧ expiresAtAbs 0 (some (.date 42)) = some 42) :=
  ⟨setCookie_expires_interpretation demoCfg {} 0 demoStFull "search"
      searchDef (.value (.str "x")) 365 1797033600000 rfl,
    setCookie_expires_interpretation demoCfg {} 0 demoStFull "selected"
      selectedDef (.value (.str "y")) 7 42 rfl⟩

/-- C7: the serialization contract defaults to platform URL-component
encoding (`encodeURIComponent` on write, `decodeURIComponent` on read),
and its override lives in the definition call's global second argument
only: the raw string a write stores is the same for every defined cookie
name, never a per-cookie function. -/
theorem serialization_default_and_global (cfg : CookieConfig)
    (opts : CookieOptions) (now : Int) (st : SystemState)
    (n1 n2 : String) (d1 d2 : CookieDef) (v : JsVal)
    (h1 : lookupKey cfg n1 = some d1) (h2 : lookupKey cfg n2 = some d2) :
    (∀ w, resolvedSerialize {} w = encodeURIComponent (jsCoerceString w))
    ∧ (∀ s, resolvedDeserialize {} s = .str (decodeURIComponent s))
    ∧ (lookupKey (setCookie cfg opts now st n1 (.value v)).store n1).map
        StoredCookie.value = some (resolvedSerialize opts v)
    ∧ (lookupKey (setCookie cfg opts now st n2 (.value v)).store n2).map
        StoredCookie.value = some (resolvedSerialize opts v) := by
  refine ⟨fun w => rfl, fun s => rfl, ?_, ?_⟩
  · simp [setCookie, h1, notifySubscribers, lookupKey_insertKey_self,
      storedFor, applySetStateAction]
  · simp [setCookie, h2, notifySubscribers, lookupKey_insertKey_self,
      storedFor, applySetStateAction]

/-- C7 witness: both quick-start cookies store the identical raw string
for the same written value under the default (encoding) options. -/
theorem serialization_default_and_global_witness :
    (∀ w, resolvedSerialize {} w = encodeURIComponent (jsCoerceString w))
    ∧ (∀ s, resolvedDeserialize {} s = .str (decodeURIComponent s))
    ∧ (lookupKey (setCookie demoCfg {} 0 demoStFull "search"
        (.value (.str "a b"))).store "search").map StoredCookie.value
      = some (resolvedSerialize {} (.str "a b"))
    ∧ (lookupKey (setCookie demoCfg {} 0 demoStFull "selected"
        (.value (.str "a b"))).store "selected").map StoredCookie.value
      = some (resolvedSerialize {} (.str "a b")) :=
  serialization_default_and_global demoCfg {} 0 demoStFull "search"
    "selected" searchDef selectedDef (.str "a b") rfl rfl

/-- C8: the definition step returns exactly the three artifacts — the
provider, the read/write hook and the clear hook — closed over the given
configuration, and has no effect on the world at call time: it neither
changes the world nor depends on it. -/
theorem defineCookies_three_artifacts_pure (cfg : CookieConfig)
    (opts : CookieOptions) (w w' : SystemState) :
    (defineCookiesW cfg opts w).1 = w
    ∧ (defineCookiesW cfg opts w).2 = (defineCookiesW cfg opts w').2
    ∧ (defineCookies cfg opts).CookieProvider = CookieProvider
    ∧ (defineCookies cfg opts).useCookie = useCookie cfg opts
    ∧ (defineCookies cfg opts).useClearCookies = useClearCookies cfg opts :=
  ⟨rfl, rfl, rfl, rfl, rfl⟩

/-- C9: the cookie-name set is an invariant: the names of a definition
call form a duplicate-free list fixed at definition time; the hydrated
world satisfies the system invariant (instance values are exactly the
validated reads of the store, hydrated once from the server snapshot);
and every runtime operation — mounting, writing, clearing — preserves
that invariant, so there are no externally observable intermediate
states. -/
theorem defineCookies_invariants (cfg : CookieConfig)
    (opts : CookieOptions) (server : RawCookies) (st : SystemState)
    (tab : Nat) (name : String) (now : Int) (action : SetStateAction)
    (keys : Option (List String)) (hInv : Inv cfg opts st) :
    (definedNames cfg).Nodup
    ∧ Inv cfg opts (CookieProvider server)
    ∧ Inv cfg opts (mountInstance cfg opts st tab name)
    ∧ Inv cfg opts (setCookie cfg opts now st name action)
    ∧ Inv cfg opts (clearCookies cfg opts st keys) :=
  ⟨List.nodup_dedup _, Inv_CookieProvider cfg opts server,
    Inv_mountInstance cfg opts st tab name hInv,
    Inv_setCookie cfg opts now st name action hInv,
    Inv_clearCookies cfg opts st keys hInv⟩

/-- C9 witness: the demo world satisfies the invariant and all the
conjuncts hold at a concrete instantiation. -/
theorem defineCookies_invariants_witness :
    Inv demoCfg {} demoStFull
    ∧ ((definedNames demoCfg).Nodup
      ∧ Inv demoCfg {} (CookieProvider [("search", "abc")])
      ∧ Inv demoCfg {} (mountInstance demoCfg {} demoStFull 2 "search")
      ∧ Inv demoCfg {} (setCookie demoCfg {} 0 demoStFull "search"
          (.value (.str "zzz")))
      ∧ Inv demoCfg {} (clearCookies demoCfg {} demoStFull
          (some ["selected"]))) :=
  ⟨by decide,
    defineCookies_invariants demoCfg {} [("search", "abc")] demoStFull 2
      "search" 0 (.value (.str "zzz")) (some ["selected"]) (by decide)⟩

end UseCookie
